import Mathlib

/-!
Verification of the streaming AI response pipeline of the fluxscape editor.

Each namespace below is a shallow embedding of one source module:

* `HistoryTruncation` — `utils/historyTruncation.ts`
* `ChatHistory`       — the `ChatHistory` model (`add` / `truncateIfNeeded`)
* `CommandLexer`      — `_backend/commandLexer.ts` (`ReActCommandLexer`)
* `AiQuery`           — the debounced stream wiring of `chatStreamXml`
* `AiApi`             — `directChatOpenAi` (retry policy, `onerror`, `onmessage`)
* `OpenRouterNode`    — the `readChunk` line loop of the OpenRouter node

Machine numbers that the JavaScript source manipulates as IEEE doubles are
modelled as exact rationals; all values appearing in the development are
small integers or quarters, on which double arithmetic is exact.
-/

namespace HistoryTruncation

/-- A chat message as used by `truncateHistoryForTokenLimit`. -/
structure ChatMessage where
  role : String
  content : String
deriving DecidableEq, Repr, Inhabited

/-- `CHARS_PER_TOKEN = 4` (approximate estimation). -/
def CHARS_PER_TOKEN : ℚ := 4

/-- `RESPONSE_RESERVE = 1000` tokens reserved for the AI response. -/
def RESPONSE_RESERVE : ℚ := 1000

/-- `MODEL_TOKEN_LIMITS` lookup table. -/
def MODEL_TOKEN_LIMITS (modelName : String) : Option ℚ :=
  if modelName = "gpt-3.5-turbo" then some 4096
  else if modelName = "gpt-4" then some 8192
  else none

/-- Estimated token cost of one message: `content.length / CHARS_PER_TOKEN`. -/
def messageTokens (m : ChatMessage) : ℚ :=
  (m.content.length : ℚ) / CHARS_PER_TOKEN

/-- Token cost of message `i` of `history` (`history[i].content.length / 4`). -/
def tokensAt (history : List ChatMessage) (i : Nat) : ℚ :=
  messageTokens (history.getD i default)

/-- The backwards for-loop of `truncateHistoryForTokenLimit`: walks indices
`i, i-1, …, 0` accumulating `historyTokens` (`ht`); when including message `i`
would exceed `avail` and `i < history.length - 2`, it stops and returns the
start index `i + 1`; otherwise it returns `0`. -/
def truncGo (history : List ChatMessage) (avail : ℚ) : Nat → ℚ → Nat
  | 0, ht =>
      if ht + tokensAt history 0 > avail ∧ 0 + 2 < history.length then 1 else 0
  | i + 1, ht =>
      if ht + tokensAt history (i + 1) > avail ∧ (i + 1) + 2 < history.length then i + 2
      else truncGo history avail i (ht + tokensAt history (i + 1))

/-- `truncateHistoryForTokenLimit(history, modelName, systemPromptLength, codeLength)`. -/
def truncateHistoryForTokenLimit (history : List ChatMessage) (modelName : String)
    (systemPromptLength : Nat) (codeLength : Nat) : List ChatMessage :=
  let maxTokens := (MODEL_TOKEN_LIMITS modelName).getD 4096
  let usedTokens : ℚ := ((systemPromptLength : ℚ) + (codeLength : ℚ)) / CHARS_PER_TOKEN
  let availableForHistory := maxTokens - usedTokens - RESPONSE_RESERVE
  if availableForHistory < 100 then
    if history.length > 0 then [history.getLast!] else []
  else
    match history.length with
    | 0 => history
    | n + 1 => history.drop (truncGo history availableForHistory n 0)

/-- The estimator the function uses, applied to a whole list. -/
def estimatedTokens (l : List ChatMessage) : ℚ :=
  (l.map messageTokens).sum

end HistoryTruncation

namespace ChatHistory

/-- `MAX_MESSAGES = 50`: maximum messages before truncation. -/
def MAX_MESSAGES : Nat := 50

/-- `TRUNCATE_TO = 30`: keep the most recent N messages after truncation. -/
def TRUNCATE_TO : Nat := 30

inductive ChatMessageType where
  | User
  | Assistant
  | System
deriving DecidableEq, Repr

/-- A persisted chat turn.  `metadata` is `Record<string, unknown>` in the
source; its values play no role in the model, so it is embedded as an
association list over strings. -/
structure ChatMessage where
  snowflakeId : String
  type : ChatMessageType
  content : String
  metadata : List (String × String)
deriving DecidableEq, Repr

/-- `PartialWithRequired<ChatMessage, 'content'>`: only `content` is
mandatory; the other fields may be absent (`undefined`). -/
structure PartialChatMessage where
  snowflakeId : Option String
  type : Option ChatMessageType
  content : String
  metadata : Option (List (String × String))
deriving DecidableEq, Repr

/-- `truncateIfNeeded`: when the length exceeds `MAX_MESSAGES`, keep the
first message if it is a `System` message, plus the most recent
`TRUNCATE_TO` messages (`slice(-TRUNCATE_TO)`). -/
def truncateIfNeeded (msgs : List ChatMessage) : List ChatMessage :=
  if msgs.length ≤ MAX_MESSAGES then msgs
  else
    let firstMessage : List ChatMessage :=
      match msgs.head? with
      | some m => if m.type = ChatMessageType.System then [m] else []
      | none => []
    let recentMessages := msgs.drop (msgs.length - TRUNCATE_TO)
    firstMessage ++ recentMessages

/-- The message built inside `add`: the snowflake id is freshly generated
(overwriting any caller-supplied one), type defaults to `User`, metadata
defaults to the empty mapping. -/
def mkMessage (m : PartialChatMessage) (freshId : String) : ChatMessage :=
  { snowflakeId := freshId
    type := m.type.getD ChatMessageType.User
    content := m.content
    metadata := m.metadata.getD [] }

/-- `ChatHistory.add(message)`.  `message = none` models a `null`/`undefined`
argument, on which the source throws before touching the history.  `freshId`
is the value produced by `AiUtils.generateSnowflakeId()` (generated outside
this module).  Returns the (possibly unchanged) message list together with
the thrown error or the returned snowflake id. -/
def add (msgs : List ChatMessage) (message : Option PartialChatMessage)
    (freshId : String) : List ChatMessage × Except Unit String :=
  match message with
  | none => (msgs, Except.error ())
  | some m => (truncateIfNeeded (msgs ++ [mkMessage m freshId]), Except.ok freshId)

/-- A whole session: fold `add` over a list of (message, generated id) pairs
starting from the empty history. -/
def runAdds (inputs : List (PartialChatMessage × String)) : List ChatMessage :=
  inputs.foldl (fun h p => (add h (some p.1) p.2).1) []

end ChatHistory

namespace CommandLexer

/-- `ReActCommand { type, args }`. -/
structure ReActCommand where
  type : String
  args : List String
deriving DecidableEq, Repr, Inhabited

/-- JavaScript `String.prototype.trim` on a character list: whitespace is
removed from both ends. -/
def jsTrim (cs : List Char) : List Char :=
  ((cs.dropWhile Char.isWhitespace).reverse.dropWhile Char.isWhitespace).reverse

/-- The loop body of `readUntil`: consumes characters until an unescaped stop
character, always keeping newlines, dropping the escaping backslash itself.
Returns the accumulated value (pre-trim, in order) and the unconsumed rest. -/
def readUntilGo (stopChars : List Char) : List Char → Bool → List Char →
    List Char × List Char
  | [], _, acc => (acc, [])
  | c :: rest, escaped, acc =>
    if c = '\n' then readUntilGo stopChars rest escaped (acc ++ [c])
    else if c ∈ stopChars ∧ escaped = false then (acc, c :: rest)
    else if c = '\\' ∧ escaped = false then readUntilGo stopChars rest true acc
    else readUntilGo stopChars rest false (acc ++ [c])

/-- `readUntil(input, stopChars)`: reads and returns `value.trim()` plus the
rest of the input starting at the stop character (if one was found). -/
def readUntil (stopChars : List Char) (input : List Char) : List Char × List Char :=
  let p := readUntilGo stopChars input false []
  (jsTrim p.1, p.2)

/-- The skip of non-uppercase characters at the top of the tokenize loop
(`/[A-Z]/` tests ASCII uppercase). -/
def skipToUpper : List Char → List Char
  | [] => []
  | c :: rest => if c.isUpper then c :: rest else skipToUpper rest

theorem readUntilGo_rest_length (stopChars : List Char) :
    ∀ (l : List Char) (escaped : Bool) (acc : List Char),
      (readUntilGo stopChars l escaped acc).2.length ≤ l.length := by
  intro l
  induction l with
  | nil => intro e a; simp [readUntilGo]
  | cons c rest ih =>
    intro e a
    rw [readUntilGo]
    split
    · exact le_trans (ih _ _) (by simp)
    · split
      · simp
      · split
        · exact le_trans (ih _ _) (by simp)
        · exact le_trans (ih _ _) (by simp)

/-- The argument loop of `tokenize`: repeatedly skips until `]` (stopping the
whole scan if input runs out), reading one quote-delimited argument whenever a
`"` is seen.  Returns the collected arguments and the unconsumed rest, which
is either empty or starts with `]`. -/
def readArgs : List Char → List String → List String × List Char
  | [], args => (args, [])
  | c :: rest, args =>
    if c = ']' then (args, c :: rest)
    else if c = '"' then
      match h : (readUntil ['"'] rest).2 with
      | [] => (args ++ [String.mk (readUntil ['"'] rest).1], [])
      | _ :: rest2 => readArgs rest2 (args ++ [String.mk (readUntil ['"'] rest).1])
    else readArgs rest args
termination_by l _ => l.length
decreasing_by
  · have hle : (readUntil ['"'] rest).2.length ≤ rest.length :=
      readUntilGo_rest_length ['"'] rest false []
    rw [h] at hle
    simp at hle ⊢
    omega
  · simp

theorem readUntil_rest_length (stopChars : List Char) (l : List Char) :
    (readUntil stopChars l).2.length ≤ l.length :=
  readUntilGo_rest_length stopChars l false []

/-- `/^[A-Z]/.test(commandType)`. -/
def startsWithUpper (s : String) : Bool :=
  match s.data with
  | [] => false
  | c :: _ => c.isUpper

/-- The `else` branch of the unterminated-bracket case: if any command
exists, its type and args are overwritten with what was parsed so far. -/
def overwriteLast (cmds : List ReActCommand) (ty : String) (args : List String) :
    List ReActCommand :=
  match cmds with
  | [] => []
  | _ :: _ => cmds.dropLast ++ [⟨ty, args⟩]

theorem readArgs_rest_length (l : List Char) (args : List String) :
    (readArgs l args).2.length ≤ l.length := by
  induction l, args using readArgs.induct with
  | case1 args => simp [readArgs]
  | case2 rest args => simp [readArgs]
  | case3 rest args hp hne =>
    rw [readArgs, if_neg hne, if_pos rfl]
    split
    · simp
    · rename_i a l2 heq
      rw [heq] at hp
      simp at hp
  | case4 rest args head rest2 hp hne ih =>
    rw [readArgs, if_neg hne, if_pos rfl]
    split
    · rename_i heq
      rw [heq] at hp
      simp at hp
    · rename_i a l2 heq
      rw [heq] at hp
      injection hp with h1 h2
      subst h1
      subst h2
      have hlen := readUntil_rest_length ['"'] rest
      rw [heq] at hlen
      refine le_trans ih ?_
      simp at hlen ⊢
      omega
  | case5 c rest args hne1 hne2 ih =>
    rw [readArgs]
    rw [if_neg hne1, if_neg hne2]
    exact le_trans ih (by simp)

/-- `if (this.peek(input) === '[') { this.next(input); }` -/
def bracketRest : List Char → List Char
  | '[' :: rest => rest
  | other => other

/-- One iteration of the `tokenize` while-loop: skip to an uppercase letter,
read the command type up to `[`, consume the `[` if present, then run the
argument loop.  Returns `(commandType, args, rest)`. -/
def parseSegment (input : List Char) : String × List String × List Char :=
  (String.mk (jsTrim (readUntil ['['] (skipToUpper input)).1),
   (readArgs (bracketRest (readUntil ['['] (skipToUpper input)).2) []).1,
   (readArgs (bracketRest (readUntil ['['] (skipToUpper input)).2) []).2)

theorem skipToUpper_length_le (l : List Char) :
    (skipToUpper l).length ≤ l.length := by
  induction l with
  | nil => simp [skipToUpper]
  | cons c rest ih =>
    rw [skipToUpper]
    split
    · exact le_refl _
    · exact le_trans ih (by simp)

theorem bracketRest_length_le (l : List Char) :
    (bracketRest l).length ≤ l.length := by
  rw [bracketRest.eq_def]
  split
  · simp
  · exact le_refl _

theorem parseSegment_rest_length (l : List Char) :
    (parseSegment l).2.2.length ≤ l.length := by
  calc (parseSegment l).2.2.length
      ≤ (bracketRest (readUntil ['['] (skipToUpper l)).2).length :=
        readArgs_rest_length _ []
    _ ≤ (readUntil ['['] (skipToUpper l)).2.length := bracketRest_length_le _
    _ ≤ (skipToUpper l).length := readUntil_rest_length _ _
    _ ≤ l.length := skipToUpper_length_le l

/-- `/^[A-Z]/.test(commandType)` combined with `commandType !== ''`: the push
condition for a completed command. -/
def isValidCommandType (commandType : String) : Prop :=
  commandType ≠ "" ∧ startsWithUpper commandType = true

instance (commandType : String) : Decidable (isValidCommandType commandType) :=
  inferInstanceAs (Decidable (_ ∧ _))

/-- The outer while-loop of `ReActCommandLexer.tokenize`.  When the segment
ends at a `]`, the command is appended (if its type is valid) and scanning
continues after the `]`; otherwise input ran out mid-segment and the parsed
type/args overwrite the last command. -/
def tokenizeGo : List Char → List ReActCommand → List ReActCommand
  | [], cmds => cmds
  | c :: cs, cmds =>
    if h : (parseSegment (c :: cs)).2.2.head? = some ']' then
      tokenizeGo (parseSegment (c :: cs)).2.2.tail
        (if isValidCommandType (parseSegment (c :: cs)).1 then
          cmds ++ [⟨(parseSegment (c :: cs)).1, (parseSegment (c :: cs)).2.1⟩]
        else cmds)
    else
      overwriteLast cmds (parseSegment (c :: cs)).1 (parseSegment (c :: cs)).2.1
termination_by l _ => l.length
decreasing_by
  have hle := parseSegment_rest_length (c :: cs)
  cases hr : (parseSegment (c :: cs)).2.2 with
  | nil => rw [hr] at h; cases h
  | cons a t =>
    have hlen2 : (parseSegment (c :: cs)).2.2.length = t.length + 1 := by
      rw [hr]
      rfl
    simp at hle ⊢
    omega

/-- `tokenize(input)`: resets position and command list, then scans the whole
input. -/
def tokenize (input : String) : List ReActCommand :=
  tokenizeGo input.data []

/-- `hasCommandChanged(oldCmd, newCmd)`: type differs, or args length or any
argument differs (elementwise comparison of string lists). -/
def hasCommandChanged (oldCmd newCmd : ReActCommand) : Bool :=
  oldCmd.type != newCmd.type || oldCmd.args != newCmd.args

/-- Lexer state: the growing `_buffer` and the `_commands` produced by the
last tokenization. -/
structure LexerState where
  buffer : String
  commands : List ReActCommand
deriving DecidableEq, Repr

/-- `ReActCommandLexer.append(ch)`: grows the buffer, re-tokenizes it in one
pass, and returns the new state plus the commands that are new (beyond the
previous count) followed by those whose content changed in place. -/
def append (st : LexerState) (ch : String) : LexerState × List ReActCommand :=
  let buffer := st.buffer ++ ch
  let previousCommands := st.commands
  let newCommands := tokenize buffer
  let newOnes := newCommands.drop previousCommands.length
  let checkLength := min previousCommands.length newCommands.length
  let changedOnes := (List.range checkLength).filterMap fun i =>
    if hasCommandChanged (previousCommands.getD i default) (newCommands.getD i default)
    then some (newCommands.getD i default) else none
  (⟨buffer, newCommands⟩, newOnes ++ changedOnes)

end CommandLexer

namespace AiQuery

/-- `UPDATE_INTERVAL = 16` milliseconds (~60fps). -/
def UPDATE_INTERVAL : Int := 16

/-- A callback delivered to the consumer of `chatStreamXml`. -/
inductive OutEvent where
  | stream (tagName text : String)
  | tagOpen (tagName : String) (attributes : List (String × String))
  | tagEnd (tagName fullText : String)
deriving DecidableEq, Repr

/-- An event produced by the underlying `Parser`.  A content event carries
the value `Date.now()` read when the parser invokes the callback. -/
inductive ParserEvent where
  | content (tagName text : String) (now : Int)
  | tagOpen (tagName : String) (attributes : List (String × String))
  | tagEnd (tagName fullText : String)
deriving DecidableEq, Repr

/-- The debouncing state of `chatStreamXml` plus the accumulated sequence of
callbacks already delivered to the consumer. -/
structure XmlStreamState where
  streamBuffer : Option (String × String)
  lastUpdateTime : Int
  out : List OutEvent
deriving DecidableEq, Repr

def initXmlState : XmlStreamState := ⟨none, 0, []⟩

/-- `flushBuffer()`: deliver the buffered update, if any, then clear it. -/
def flushBuffer (st : XmlStreamState) : XmlStreamState :=
  match st.streamBuffer with
  | some p => { st with out := st.out ++ [OutEvent.stream p.1 p.2], streamBuffer := none }
  | none => { st with streamBuffer := none }

/-- One parser callback, as wired up in `chatStreamXml`: content updates
within `UPDATE_INTERVAL` of the last delivery are buffered (overwriting any
older buffered update); tag-open is delivered immediately; tag-end flushes
the buffer and is then delivered immediately. -/
def xmlStep (st : XmlStreamState) (e : ParserEvent) : XmlStreamState :=
  match e with
  | ParserEvent.content tagName text now =>
      if now - st.lastUpdateTime < UPDATE_INTERVAL then
        { st with streamBuffer := some (tagName, text) }
      else
        { st with lastUpdateTime := now, out := st.out ++ [OutEvent.stream tagName text] }
  | ParserEvent.tagOpen tagName attributes =>
      { st with out := st.out ++ [OutEvent.tagOpen tagName attributes] }
  | ParserEvent.tagEnd tagName fullText =>
      let st2 := flushBuffer st
      { st2 with out := st2.out ++ [OutEvent.tagEnd tagName fullText] }

/-- The whole `chatStreamXml` delivery pipeline over a sequence of parser
events, including the final `flushBuffer()` after the stream completes. -/
def chatStreamXmlRun (events : List ParserEvent) : XmlStreamState :=
  flushBuffer (events.foldl xmlStep initXmlState)

/-- The structural (non-content) events among the delivered callbacks. -/
def outTagEvents (l : List OutEvent) : List OutEvent :=
  l.filter (fun e => match e with
    | OutEvent.stream _ _ => false
    | _ => true)

/-- The structural events of a parser-event sequence, in order. -/
def inputTagEvents (events : List ParserEvent) : List OutEvent :=
  events.filterMap (fun e => match e with
    | ParserEvent.content _ _ _ => none
    | ParserEvent.tagOpen t a => some (OutEvent.tagOpen t a)
    | ParserEvent.tagEnd t f => some (OutEvent.tagEnd t f))

end AiQuery

namespace AiApi

/-- `RETRY_CONFIG` of `ai-api`. -/
structure RetryConfig where
  maxRetries : Nat
  initialDelayMs : ℚ
  maxDelayMs : ℚ
  backoffMultiplier : ℚ
  jitterMs : ℚ
deriving DecidableEq, Repr

def RETRY_CONFIG : RetryConfig :=
  { maxRetries := 3
    initialDelayMs := 1000
    maxDelayMs := 10000
    backoffMultiplier := 2
    jitterMs := 500 }

/-- `calculateRetryDelay(attemptNumber)`.  `rand` is the value returned by
`Math.random()`, a uniform sample from `[0, 1)` supplied by the runtime. -/
def calculateRetryDelay (attemptNumber : Nat) (rand : ℚ) : ℚ :=
  min (RETRY_CONFIG.initialDelayMs * RETRY_CONFIG.backoffMultiplier ^ attemptNumber)
      RETRY_CONFIG.maxDelayMs
    + rand * RETRY_CONFIG.jitterMs

def fatalToast : String := "AI request failed. Please check your API key and try again."

def trafficError : String :=
  "Apologies, the AI service is currently facing heavy traffic, causing delays in processing requests. Please be patient and try again later."

/-- The `onerror` handler of `directChatOpenAi`: on `FatalError` rethrow at
once; on `RetriableError` or any unknown error, throw once `tries` is
exhausted, otherwise decrement `tries`, increment `currentAttempt` and
return the next backoff delay. -/
def onerror (errText : String) (tries currentAttempt : Nat) (rand : ℚ) :
    Except String (Nat × Nat × ℚ) :=
  if errText = "FatalError" then Except.error fatalToast
  else if errText = "RetriableError" then
    if tries = 0 then Except.error trafficError
    else Except.ok (tries - 1, currentAttempt + 1, calculateRetryDelay (currentAttempt + 1) rand)
  else
    if tries = 0 then Except.error errText
    else Except.ok (tries - 1, currentAttempt + 1, calculateRetryDelay (currentAttempt + 1) rand)

/-- `onopen`'s classification of a response: fine when `ok` with an
event-stream content type; `FatalError` for a 4xx status other than 429;
`RetriableError` otherwise. -/
def classifyOpen (ok : Bool) (isEventStream : Bool) (status : Nat) : Option String :=
  if ok = true ∧ isEventStream = true then none
  else if 400 ≤ status ∧ status < 500 ∧ status ≠ 429 then some "FatalError"
  else some "RetriableError"

/-- Outcome of one connection attempt, as classified by `onopen`/`onerror`:
success, or the thrown error text. -/
inductive AttemptOutcome where
  | success
  | fatal
  | retriable
  | unknownErr (errText : String)
deriving DecidableEq, Repr

inductive StreamResult where
  | completed (attempts : Nat)
  | failed (message : String) (attempts : Nat)
deriving DecidableEq, Repr

/-- The retry loop driven by `fetchEventSource`: each failed attempt invokes
`onerror`; returning a delay retries, throwing stops the operation.
`outcomes n` is the outcome of the `n`-th connection attempt (0-based);
`currentAttempt` counts the attempts already failed, exactly as the mutable
`currentAttempt` of the source.  The result records the total number of
connection attempts made. -/
def runStream (outcomes : Nat → AttemptOutcome) : Nat → Nat → StreamResult
  | tries, currentAttempt =>
    match outcomes currentAttempt, tries with
    | AttemptOutcome.success, _ => StreamResult.completed (currentAttempt + 1)
    | AttemptOutcome.fatal, _ => StreamResult.failed fatalToast (currentAttempt + 1)
    | AttemptOutcome.retriable, 0 => StreamResult.failed trafficError (currentAttempt + 1)
    | AttemptOutcome.retriable, t + 1 => runStream outcomes t (currentAttempt + 1)
    | AttemptOutcome.unknownErr errText, 0 =>
        StreamResult.failed errText (currentAttempt + 1)
    | AttemptOutcome.unknownErr _, t + 1 => runStream outcomes t (currentAttempt + 1)
termination_by tries _ => tries

/-- `directChatOpenAi` starts with `tries = RETRY_CONFIG.maxRetries` and
`currentAttempt = 0`. -/
def directChatOpenAiRun (outcomes : Nat → AttemptOutcome) : StreamResult :=
  runStream outcomes RETRY_CONFIG.maxRetries 0

/-- State accumulated by the `onmessage` handler of `directChatOpenAi`,
together with the `onStream(fullText, delta)` calls already made. -/
structure MsgState where
  fullText : String
  completionTokenCount : Nat
  aborted : Bool
  streamed : List (String × String)
deriving DecidableEq, Repr

def initMsgState : MsgState := ⟨"", 0, false, []⟩

/-- `JSON.parse(ev.data)` followed by `json.choices[0].delta.content`:
`Except.error` models a thrown parse/shape error, `Except.ok none` a missing
or non-string `content`, `Except.ok (some s)` the extracted fragment.  The
parse function is supplied as an oracle parameter. -/
def JsonParse : Type := String → Except Unit (Option String)

/-- The `onmessage` handler: `[DONE]` aborts the controller; a parse failure
is caught and ignored; an extracted non-empty `delta` (empty string is falsy)
is counted, appended to `fullText` and forwarded to `onStream`. -/
def onmessage (parse : JsonParse) (st : MsgState) (data : String) : MsgState :=
  if data = "[DONE]" then { st with aborted := true }
  else
    match parse data with
    | Except.error _ => st
    | Except.ok none => st
    | Except.ok (some delta) =>
        if delta = "" then st
        else
          { st with
            completionTokenCount := st.completionTokenCount + 1
            fullText := st.fullText ++ delta
            streamed := st.streamed ++ [(st.fullText ++ delta, delta)] }

/-- A run of the message stream: once the controller is aborted,
`fetchEventSource` delivers no further events. -/
def runMessages (parse : JsonParse) (events : List String) : MsgState :=
  events.foldl (fun st data => if st.aborted then st else onmessage parse st data)
    initMsgState

end AiApi

namespace OpenRouterNode

/-- The node state touched by `readChunk`'s line loop. -/
structure NodeState where
  streamingText : String
  fullResponse : String
  messages : List (String × String)
  userMessage : String
  streamingSignals : Nat
  completedSignals : Nat
  done : Bool
deriving DecidableEq, Repr

/-- One `data:`-prefixed line of the OpenRouter event stream.  On the
`[DONE]` sentinel the handler publishes the full response, appends the
user/assistant turns and signals completion, then returns from `readChunk`
(dropping all remaining buffered lines).  Parse errors are ignored. -/
def processLine (parse : AiApi.JsonParse) (st : NodeState) (line : String) : NodeState :=
  if ("data: ").data.isPrefixOf line.data then
    let data := String.mk (line.data.drop 6)
    if data = "[DONE]" then
      { st with
        fullResponse := st.streamingText
        messages := st.messages ++ [("user", st.userMessage), ("assistant", st.streamingText)]
        completedSignals := st.completedSignals + 1
        done := true }
    else
      match parse data with
      | Except.error _ => st
      | Except.ok none => st
      | Except.ok (some delta) =>
          if delta = "" then st
          else
            { st with
              streamingText := st.streamingText ++ delta
              streamingSignals := st.streamingSignals + 1 }
  else st

/-- The `for` loop over the complete lines of one decoded chunk; the `return`
taken on `[DONE]` abandons the remaining lines. -/
def processLines (parse : AiApi.JsonParse) (st : NodeState) : List String → NodeState
  | [] => st
  | line :: rest =>
    if st.done then st
    else
      let st2 := processLine parse st line
      if st2.done then st2 else processLines parse st2 rest

end OpenRouterNode

/-! ## Theorems

### HistoryTruncation (claim C1) -/

namespace HistoryTruncation

theorem estimatedTokens_nil : estimatedTokens [] = 0 := rfl

theorem estimatedTokens_cons (m : ChatMessage) (l : List ChatMessage) :
    estimatedTokens (m :: l) = messageTokens m + estimatedTokens l := by
  simp [estimatedTokens]

theorem estimatedTokens_drop (history : List ChatMessage) (i : Nat)
    (h : i < history.length) :
    estimatedTokens (history.drop i) =
      tokensAt history i + estimatedTokens (history.drop (i + 1)) := by
  rw [List.drop_eq_getElem_cons h, estimatedTokens_cons, tokensAt,
    List.getD_eq_getElem history default h]

/-- Loop invariant of the backwards walk: provided the accumulator equals the
cost of the messages already included, the returned start index never cuts the
whole history away, and whenever at least three messages remain included their
total cost stays within budget. -/
theorem truncGo_spec (history : List ChatMessage) (avail : ℚ) :
    ∀ i ht, i < history.length →
      ht = estimatedTokens (history.drop (i + 1)) →
      (i + 4 ≤ history.length → ht ≤ avail) →
      (truncGo history avail i ht = 0 ∨
        truncGo history avail i ht + 1 < history.length) ∧
      (truncGo history avail i ht + 3 ≤ history.length →
        estimatedTokens (history.drop (truncGo history avail i ht)) ≤ avail) := by
  intro i
  induction i with
  | zero =>
    intro ht hlt hht hpre
    by_cases hc : ht + tokensAt history 0 > avail ∧ 0 + 2 < history.length
    · rw [truncGo, if_pos hc]
      refine ⟨Or.inr (by omega), fun h4 => ?_⟩
      have h0 : (0 : Nat) + 1 = 1 := rfl
      rw [h0] at hht
      rw [← hht]
      exact hpre (by omega)
    · rw [truncGo, if_neg hc]
      refine ⟨Or.inl rfl, fun h3 => ?_⟩
      rw [estimatedTokens_drop history 0 hlt]
      have h2 : 0 + 2 < history.length := by omega
      have hle : ¬ (ht + tokensAt history 0 > avail) := fun hgt => hc ⟨hgt, h2⟩
      push_neg at hle
      linarith [hht.symm]
  | succ i ih =>
    intro ht hlt hht hpre
    by_cases hc : ht + tokensAt history (i + 1) > avail ∧ (i + 1) + 2 < history.length
    · rw [truncGo, if_pos hc]
      refine ⟨Or.inr (by omega), fun h5 => ?_⟩
      have h0 : i + 1 + 1 = i + 2 := rfl
      rw [h0] at hht
      rw [← hht]
      exact hpre (by omega)
    · rw [truncGo, if_neg hc]
      have hi : i < history.length := by omega
      have hht' : ht + tokensAt history (i + 1) =
          estimatedTokens (history.drop (i + 1)) := by
        rw [estimatedTokens_drop history (i + 1) hlt, hht]
        ring
      have hpre' : i + 4 ≤ history.length → ht + tokensAt history (i + 1) ≤ avail := by
        intro h4
        have h3 : (i + 1) + 2 < history.length := by omega
        have hn : ¬ (ht + tokensAt history (i + 1) > avail) := fun hgt => hc ⟨hgt, h3⟩
        exact not_lt.mp hn
      exact ih (ht + tokensAt history (i + 1)) hi hht' hpre'

/-- Claim C1 (corrected): the estimated token cost of the returned history
stays within `modelLimit - (systemPromptLength + codeLength)/CHARS_PER_TOKEN -
RESPONSE_RESERVE` whenever at least three messages are returned, and a
non-empty input history always yields a non-empty result.  (The last two
messages are always retained even when they alone exceed the budget, which
is why the bound is conditional on three returned messages; see the
counterexample.) -/
theorem truncateHistory_budget (history : List ChatMessage) (modelName : String)
    (systemPromptLength codeLength : Nat) :
    (3 ≤ (truncateHistoryForTokenLimit history modelName systemPromptLength codeLength).length →
      estimatedTokens (truncateHistoryForTokenLimit history modelName systemPromptLength codeLength) ≤
        (MODEL_TOKEN_LIMITS modelName).getD 4096 -
          ((systemPromptLength : ℚ) + (codeLength : ℚ)) / CHARS_PER_TOKEN - RESPONSE_RESERVE) ∧
    (history ≠ [] →
      truncateHistoryForTokenLimit history modelName systemPromptLength codeLength ≠ []) := by
  rw [truncateHistoryForTokenLimit]
  set avail := (MODEL_TOKEN_LIMITS modelName).getD 4096 -
      ((systemPromptLength : ℚ) + (codeLength : ℚ)) / CHARS_PER_TOKEN - RESPONSE_RESERVE with havail
  split
  · constructor
    · intro h3
      exfalso
      revert h3
      split <;> simp
    · intro hne
      have : 0 < history.length := List.length_pos.mpr hne
      rw [if_pos this]
      simp
  · constructor
    · intro h3
      revert h3
      split
      · rename_i hlen
        intro h3
        exact absurd h3 (by omega)
      · rename_i n hlen
        intro h3
        have hn : n < history.length := by omega
        have hS : (0 : ℚ) = estimatedTokens (history.drop (n + 1)) := by
          rw [List.drop_eq_nil_of_le (by omega), estimatedTokens_nil]
        have hspec := truncGo_spec history avail n 0 hn hS (by omega)
        have hlen2 : (history.drop (truncGo history avail n 0)).length =
            history.length - truncGo history avail n 0 := List.length_drop _ _
        exact hspec.2 (by omega)
    · intro hne
      revert hne
      split
      · rename_i hlen
        intro hne
        exact absurd (List.length_eq_zero.mp hlen) hne
      · rename_i n hlen
        intro hne
        have hn : n < history.length := by omega
        have hS : (0 : ℚ) = estimatedTokens (history.drop (n + 1)) := by
          rw [List.drop_eq_nil_of_le (by omega), estimatedTokens_nil]
        have hspec := truncGo_spec history avail n 0 hn hS (by omega)
        have hlt : truncGo history avail n 0 < history.length := by
          rcases hspec.1 with h0 | hlt
          · omega
          · omega
        intro hcon
        have := List.length_eq_zero.mpr hcon
        rw [List.length_drop] at this
        omega

/-- Claim C1 witness: a concrete three-message history for which the budget
bound and non-emptiness hold. -/
theorem truncateHistory_budget_witness :
    estimatedTokens (truncateHistoryForTokenLimit
        [⟨"user", "hi"⟩, ⟨"assistant", "hello"⟩, ⟨"user", "ok"⟩] "gpt-4" 0 0) ≤
      (MODEL_TOKEN_LIMITS "gpt-4").getD 4096 -
        ((0 : ℚ) + (0 : ℚ)) / CHARS_PER_TOKEN - RESPONSE_RESERVE ∧
    truncateHistoryForTokenLimit
        [⟨"user", "hi"⟩, ⟨"assistant", "hello"⟩, ⟨"user", "ok"⟩] "gpt-4" 0 0 ≠ [] := by
  have h := truncateHistory_budget
    [⟨"user", "hi"⟩, ⟨"assistant", "hello"⟩, ⟨"user", "ok"⟩] "gpt-4" 0 0
  refine ⟨h.1 ?_, h.2 (by simp)⟩
  · norm_num [truncateHistoryForTokenLimit, MODEL_TOKEN_LIMITS, CHARS_PER_TOKEN,
      RESPONSE_RESERVE, truncGo, tokensAt, messageTokens,
      show ("hi" : String).length = 2 from rfl,
      show ("hello" : String).length = 5 from rfl,
      show ("ok" : String).length = 2 from rfl,
      show ("gpt-4" = "gpt-3.5-turbo") = False from (by simp)]

/-- Claim C1 counterexample: with budget 200 tokens and two 500-character
messages (125 tokens each), the function keeps both messages — the result is
not the single-last-message fallback, yet its estimated cost (250 tokens)
exceeds the available budget of 200 tokens. -/
theorem truncateHistory_budget_counterexample :
    truncateHistoryForTokenLimit
        [⟨"user", String.mk (List.replicate 500 'a')⟩,
         ⟨"assistant", String.mk (List.replicate 500 'b')⟩] "gpt-3.5-turbo" 11584 0 =
      [⟨"user", String.mk (List.replicate 500 'a')⟩,
       ⟨"assistant", String.mk (List.replicate 500 'b')⟩] ∧
    (MODEL_TOKEN_LIMITS "gpt-3.5-turbo").getD 4096 -
        ((11584 : ℚ) + (0 : ℚ)) / CHARS_PER_TOKEN - RESPONSE_RESERVE = 200 ∧
    estimatedTokens
      (truncateHistoryForTokenLimit
        [⟨"user", String.mk (List.replicate 500 'a')⟩,
         ⟨"assistant", String.mk (List.replicate 500 'b')⟩] "gpt-3.5-turbo" 11584 0) = 250 := by
  have h1 : truncateHistoryForTokenLimit
      [⟨"user", String.mk (List.replicate 500 'a')⟩,
       ⟨"assistant", String.mk (List.replicate 500 'b')⟩] "gpt-3.5-turbo" 11584 0 =
      [⟨"user", String.mk (List.replicate 500 'a')⟩,
       ⟨"assistant", String.mk (List.replicate 500 'b')⟩] := by
    norm_num [truncateHistoryForTokenLimit, MODEL_TOKEN_LIMITS, CHARS_PER_TOKEN,
      RESPONSE_RESERVE, truncGo, tokensAt, messageTokens, String.length_mk,
      List.length_replicate]
  have h2 : (MODEL_TOKEN_LIMITS "gpt-3.5-turbo").getD 4096 -
      ((11584 : ℚ) + (0 : ℚ)) / CHARS_PER_TOKEN - RESPONSE_RESERVE = 200 := by
    norm_num [ MODEL_TOKEN_LIMITS, CHARS_PER_TOKEN, RESPONSE_RESERVE]
  refine ⟨h1, h2, ?_⟩
  rw [h1]
  norm_num [estimatedTokens, messageTokens, CHARS_PER_TOKEN, String.length_mk,
    List.length_replicate]

end HistoryTruncation

/-! ### ChatHistory (claims C2 and C10) -/

namespace ChatHistory

theorem truncateIfNeeded_length_le (l : List ChatMessage)
    (h : l.length ≤ MAX_MESSAGES + 1) :
    (truncateIfNeeded l).length ≤ MAX_MESSAGES := by
  rw [truncateIfNeeded]
  split
  · assumption
  · rename_i hgt
    simp only [List.length_append, List.length_drop]
    have hfirst : (match l.head? with
        | some m => if m.type = ChatMessageType.System then [m] else []
        | none => ([] : List ChatMessage)).length ≤ 1 := by
      split
      · split <;> simp
      · simp
    rw [MAX_MESSAGES] at *
    rw [TRUNCATE_TO]
    omega

theorem truncateIfNeeded_getLast? (h : List ChatMessage) (m : ChatMessage) :
    (truncateIfNeeded (h ++ [m])).getLast? = some m := by
  rw [truncateIfNeeded]
  split
  · exact List.getLast?_concat h
  · rename_i hgt
    have hlen : MAX_MESSAGES < h.length + 1 := by
      simpa using not_le.mp hgt
    have hk : (h ++ [m]).length - TRUNCATE_TO ≤ h.length := by
      simp [TRUNCATE_TO]
    rw [List.drop_append_of_le_length hk, ← List.append_assoc]
    exact List.getLast?_concat _

/-- Claim C2: starting from an empty history, after every `add` the length is
at most `MAX_MESSAGES`; an `add` that pushes past the bound truncates to the
original first message (kept exactly when it is a `System` message) followed
by the most recent `TRUNCATE_TO` messages; in particular, a 51st `add` onto a
`System`-headed 50-message history yields 31 messages headed by that same
`System` message. -/
theorem chatHistory_bound :
    (∀ (inputs : List (PartialChatMessage × String)) (n : Nat),
        (runAdds (inputs.take n)).length ≤ MAX_MESSAGES) ∧
    (∀ (h : List ChatMessage) (p : PartialChatMessage) (fid : String),
        MAX_MESSAGES < (h ++ [mkMessage p fid]).length →
        (add h (some p) fid).1 =
          (match h.head? with
            | some m0 => if m0.type = ChatMessageType.System then [m0] else []
            | none => []) ++
          ((h ++ [mkMessage p fid]).drop
            ((h ++ [mkMessage p fid]).length - TRUNCATE_TO))) ∧
    (∀ (h : List ChatMessage) (p : PartialChatMessage) (fid : String)
        (m0 : ChatMessage),
        h.length = MAX_MESSAGES → h.head? = some m0 →
        m0.type = ChatMessageType.System →
        ((add h (some p) fid).1).length = TRUNCATE_TO + 1 ∧
        ((add h (some p) fid).1).head? = some m0) := by
  have hstep : ∀ (acc : List ChatMessage) (p : PartialChatMessage) (fid : String),
      acc.length ≤ MAX_MESSAGES → ((add acc (some p) fid).1).length ≤ MAX_MESSAGES := by
    intro acc p fid hacc
    rw [add]
    exact truncateIfNeeded_length_le _ (by simp; omega)
  have hfold : ∀ (inputs : List (PartialChatMessage × String)) (acc : List ChatMessage),
      acc.length ≤ MAX_MESSAGES →
      ((inputs.foldl (fun h p => (add h (some p.1) p.2).1) acc)).length ≤ MAX_MESSAGES := by
    intro inputs
    induction inputs with
    | nil => intro acc hacc; simpa using hacc
    | cons x xs ih =>
      intro acc hacc
      exact ih _ (hstep acc x.1 x.2 hacc)
  have htrunc : ∀ (h : List ChatMessage) (p : PartialChatMessage) (fid : String),
      MAX_MESSAGES < (h ++ [mkMessage p fid]).length →
      (add h (some p) fid).1 =
        (match h.head? with
          | some m0 => if m0.type = ChatMessageType.System then [m0] else []
          | none => []) ++
        ((h ++ [mkMessage p fid]).drop
          ((h ++ [mkMessage p fid]).length - TRUNCATE_TO)) := by
    intro h p fid hgt
    rw [add, truncateIfNeeded, if_neg (by omega)]
    have hne : h ≠ [] := by
      intro hcon
      subst hcon
      simp [MAX_MESSAGES] at hgt
    match h with
    | [] => exact absurd rfl hne
    | a :: t => rfl
  refine ⟨fun inputs n => hfold _ [] (by simp [MAX_MESSAGES]), htrunc, ?_⟩
  intro h p fid m0 hlen hhead htype
  have hgt : MAX_MESSAGES < (h ++ [mkMessage p fid]).length := by
    simp [hlen]
  rw [htrunc h p fid hgt, hhead]
  have hred : (match some m0 with
      | some m0 => if m0.type = ChatMessageType.System then [m0] else []
      | none => ([] : List ChatMessage)) = [m0] := by
    simp [htype]
  rw [hred]
  have hdlen : ((h ++ [mkMessage p fid]).drop
      ((h ++ [mkMessage p fid]).length - TRUNCATE_TO)).length = TRUNCATE_TO := by
    rw [List.length_drop]
    simp [hlen, MAX_MESSAGES, TRUNCATE_TO]
  constructor
  · rw [List.length_append, hdlen]
    simp [Nat.add_comm]
  · simp

/-- Claim C2 witness: the 51st `add` onto a concrete `System`-headed
50-message history gives exactly 31 messages, still headed by the original
system message. -/
theorem chatHistory_bound_witness :
    ((add ((⟨"s0", ChatMessageType.System, "prompt", []⟩ : ChatMessage) ::
          List.replicate 49 (⟨"u", ChatMessageType.User, "turn", []⟩ : ChatMessage))
        (some ⟨none, none, "message 51", none⟩) "id51").1).length = TRUNCATE_TO + 1 ∧
    ((add ((⟨"s0", ChatMessageType.System, "prompt", []⟩ : ChatMessage) ::
          List.replicate 49 (⟨"u", ChatMessageType.User, "turn", []⟩ : ChatMessage))
        (some ⟨none, none, "message 51", none⟩) "id51").1).head? =
      some ⟨"s0", ChatMessageType.System, "prompt", []⟩ :=
  chatHistory_bound.2.2 _ _ _ _ (by simp [MAX_MESSAGES]) rfl rfl

/-- Claim C10: `add` stamps the freshly generated snowflake id on the stored
message (ignoring any caller-supplied id) and returns that id; a missing
`type` defaults to `User` and missing `metadata` to the empty mapping; a
`null`/`undefined` message throws and leaves the history unchanged. -/
theorem add_defaults :
    (∀ (h : List ChatMessage) (p : PartialChatMessage) (fid : String),
        (add h (some p) fid).2 = Except.ok fid ∧
        ((add h (some p) fid).1).getLast? = some (mkMessage p fid) ∧
        (mkMessage p fid).snowflakeId = fid ∧
        (p.type = none → (mkMessage p fid).type = ChatMessageType.User) ∧
        (p.metadata = none → (mkMessage p fid).metadata = [])) ∧
    (∀ (h : List ChatMessage) (fid : String),
        add h none fid = (h, Except.error ())) := by
  refine ⟨fun h p fid => ⟨rfl, ?_, rfl, ?_, ?_⟩, fun h fid => rfl⟩
  · rw [add]
    exact truncateIfNeeded_getLast? h (mkMessage p fid)
  · intro ht
    simp [mkMessage, ht]
  · intro hm
    simp [mkMessage, hm]

/-- Claim C10 witness: a concrete `add` with a caller-supplied id, no type
and no metadata: the stored message carries the generated id `"gen"`, type
`User`, empty metadata, and `"gen"` is returned; `add` of `none` throws and
keeps the history. -/
theorem add_defaults_witness :
    (add [] (some ⟨some "caller-id", none, "hello", none⟩) "gen").2 =
      Except.ok "gen" ∧
    ((add [] (some ⟨some "caller-id", none, "hello", none⟩) "gen").1).getLast? =
      some (mkMessage ⟨some "caller-id", none, "hello", none⟩ "gen") ∧
    (mkMessage (⟨some "caller-id", none, "hello", none⟩ : PartialChatMessage)
        "gen").snowflakeId = "gen" ∧
    (mkMessage (⟨some "caller-id", none, "hello", none⟩ : PartialChatMessage)
        "gen").type = ChatMessageType.User ∧
    (mkMessage (⟨some "caller-id", none, "hello", none⟩ : PartialChatMessage)
        "gen").metadata = [] ∧
    add ([⟨"x", ChatMessageType.User, "kept", []⟩] : List ChatMessage) none "gen" =
      ([⟨"x", ChatMessageType.User, "kept", []⟩], Except.error ()) := by
  have h := add_defaults.1 [] (⟨some "caller-id", none, "hello", none⟩ : PartialChatMessage) "gen"
  exact ⟨h.1, h.2.1, h.2.2.1, h.2.2.2.1 rfl, h.2.2.2.2 rfl,
    add_defaults.2 [⟨"x", ChatMessageType.User, "kept", []⟩] "gen"⟩

end ChatHistory

/-! ### AiApi: retry policy and stream events (claims C5, C7, C8, C9) -/

namespace AiApi

/-- Claim C5: a transport that always fails Retriably is attempted exactly
`maxRetries + 1` times (4 by default) before the user-facing heavy-traffic
failure; a transport that fails Retriably once and then succeeds on the
second of three allowed attempts makes exactly 2 attempts and completes; a
Fatal classification (HTTP 4xx other than 429) retries nothing and fails at
once. -/
theorem retry_ceiling :
    (∀ (m : Nat) (outcomes : Nat → AttemptOutcome),
        (∀ n, outcomes n = AttemptOutcome.retriable) →
        runStream outcomes m 0 = StreamResult.failed trafficError (m + 1)) ∧
    (∀ (outcomes : Nat → AttemptOutcome),
        (∀ n, outcomes n = AttemptOutcome.retriable) →
        directChatOpenAiRun outcomes =
          StreamResult.failed trafficError (RETRY_CONFIG.maxRetries + 1)) ∧
    (∀ (outcomes : Nat → AttemptOutcome),
        outcomes 0 = AttemptOutcome.retriable → outcomes 1 = AttemptOutcome.success →
        runStream outcomes 2 0 = StreamResult.completed 2) ∧
    (∀ (outcomes : Nat → AttemptOutcome) (tries : Nat),
        outcomes 0 = AttemptOutcome.fatal →
        runStream outcomes tries 0 = StreamResult.failed fatalToast 1) ∧
    (∀ (ok isEventStream : Bool) (status : Nat),
        ¬ (ok = true ∧ isEventStream = true) →
        400 ≤ status → status < 500 → status ≠ 429 →
        classifyOpen ok isEventStream status = some "FatalError") := by
  have hgen : ∀ (m c : Nat) (outcomes : Nat → AttemptOutcome),
      (∀ n, outcomes n = AttemptOutcome.retriable) →
      runStream outcomes m c = StreamResult.failed trafficError (c + m + 1) := by
    intro m
    induction m with
    | zero =>
      intro c outcomes hall
      rw [runStream.eq_def]
      simp [hall]
    | succ t ih =>
      intro c outcomes hall
      rw [runStream.eq_def]
      simp only [hall]
      rw [ih (c + 1) outcomes hall]
      congr 1
      omega
  refine ⟨fun m outcomes hall => by simpa using hgen m 0 outcomes hall,
    fun outcomes hall => by simpa using hgen RETRY_CONFIG.maxRetries 0 outcomes hall,
    fun outcomes h0 h1 => ?_,
    fun outcomes tries h0 => ?_,
    fun ok isEventStream status hok h4 h5 h429 => ?_⟩
  · rw [runStream.eq_def]
    simp only [h0]
    rw [runStream.eq_def]
    simp [h1]
  · rw [runStream.eq_def]
    simp [h0]
  · rw [classifyOpen, if_neg hok, if_pos ⟨h4, h5, h429⟩]

/-- Claim C5 witness: concrete transports realizing the three scenarios with
the default configuration. -/
theorem retry_ceiling_witness :
    directChatOpenAiRun (fun _ => AttemptOutcome.retriable) =
      StreamResult.failed trafficError 4 ∧
    runStream (fun n => if n = 0 then AttemptOutcome.retriable else AttemptOutcome.success)
      2 0 = StreamResult.completed 2 ∧
    runStream (fun _ => AttemptOutcome.fatal) RETRY_CONFIG.maxRetries 0 =
      StreamResult.failed fatalToast 1 ∧
    classifyOpen false false 404 = some "FatalError" :=
  ⟨retry_ceiling.2.1 (fun _ => AttemptOutcome.retriable) (fun _ => rfl),
   retry_ceiling.2.2.1 _ rfl rfl,
   retry_ceiling.2.2.2.1 (fun _ => AttemptOutcome.fatal) RETRY_CONFIG.maxRetries rfl,
   retry_ceiling.2.2.2.2 false false 404 (by simp) (by omega) (by omega) (by omega)⟩

/-- Claim C8: the computed backoff delay is exactly
`min(maxDelayMs, initialDelayMs * backoffMultiplier ^ n)` plus a jitter lying
in `[0, jitterMs)` whenever `Math.random()` returns a value in `[0, 1)`; and
`onerror` increments the attempt counter exactly on the Retriable and
Unknown branches that return a delay, while the Fatal branch never does —
it always rethrows without touching the counter. -/
theorem retry_delay_and_counter :
    (∀ (n : Nat) (rand : ℚ), 0 ≤ rand → rand < 1 →
        ∃ j, 0 ≤ j ∧ j < RETRY_CONFIG.jitterMs ∧
          calculateRetryDelay n rand =
            min (RETRY_CONFIG.initialDelayMs * RETRY_CONFIG.backoffMultiplier ^ n)
              RETRY_CONFIG.maxDelayMs + j) ∧
    (∀ (errText : String) (tries currentAttempt : Nat) (rand : ℚ)
        (t2 c2 : Nat) (d : ℚ),
        onerror errText tries currentAttempt rand = Except.ok (t2, c2, d) →
        c2 = currentAttempt + 1 ∧ t2 = tries - 1 ∧ errText ≠ "FatalError" ∧
        d = calculateRetryDelay (currentAttempt + 1) rand) ∧
    (∀ (tries currentAttempt : Nat) (rand : ℚ),
        onerror "FatalError" tries currentAttempt rand = Except.error fatalToast) := by
  refine ⟨fun n rand h0 h1 => ?_, fun errText tries c rand t2 c2 d h => ?_, fun tries c rand => rfl⟩
  · refine ⟨rand * RETRY_CONFIG.jitterMs, ?_, ?_, rfl⟩
    · have : (0 : ℚ) ≤ RETRY_CONFIG.jitterMs := by norm_num [RETRY_CONFIG]
      exact mul_nonneg h0 this
    · have hj : (0 : ℚ) < RETRY_CONFIG.jitterMs := by norm_num [RETRY_CONFIG]
      calc rand * RETRY_CONFIG.jitterMs < 1 * RETRY_CONFIG.jitterMs := by
            exact mul_lt_mul_of_pos_right h1 hj
        _ = RETRY_CONFIG.jitterMs := one_mul _
  · rw [onerror] at h
    by_cases hf : errText = "FatalError"
    · rw [if_pos hf] at h
      cases h
    · rw [if_neg hf] at h
      by_cases hr : errText = "RetriableError"
      · rw [if_pos hr] at h
        by_cases ht : tries = 0
        · rw [if_pos ht] at h
          cases h
        · rw [if_neg ht] at h
          injection h with h2
          injection h2 with ha hb
          injection hb with hb hc
          exact ⟨hb.symm, ha.symm, hf, hc.symm⟩
      · rw [if_neg hr] at h
        by_cases ht : tries = 0
        · rw [if_pos ht] at h
          cases h
        · rw [if_neg ht] at h
          injection h with h2
          injection h2 with ha hb
          injection hb with hb hc
          exact ⟨hb.symm, ha.symm, hf, hc.symm⟩

/-- Claim C8 witness: attempt number 2 with `Math.random() = 1/2` gives
delay `min(10000, 1000·2²) + 250 = 4250`, and a concrete Retriable `onerror`
call increments the counter while a Fatal one rethrows. -/
theorem retry_delay_and_counter_witness :
    (∃ j, 0 ≤ j ∧ j < RETRY_CONFIG.jitterMs ∧
        calculateRetryDelay 2 (1 / 2) =
          min (RETRY_CONFIG.initialDelayMs * RETRY_CONFIG.backoffMultiplier ^ 2)
            RETRY_CONFIG.maxDelayMs + j) ∧
    ((3 : Nat) - 1, (0 : Nat) + 1,
        calculateRetryDelay (0 + 1) (1 / 2)) = (2, 1, calculateRetryDelay 1 (1 / 2)) ∧
    onerror "FatalError" 3 0 (1 / 2) = Except.error fatalToast := by
  refine ⟨retry_delay_and_counter.1 2 (1 / 2) (by norm_num) (by norm_num), ?_, ?_⟩
  · have h := retry_delay_and_counter.2.1 "RetriableError" 3 0 (1 / 2) 2 1
      (calculateRetryDelay 1 (1 / 2)) rfl
    exact Prod.ext (by simpa using h.2.1) (Prod.ext (by simpa using h.1) (by simp [h.2.2.2]))
  · exact retry_delay_and_counter.2.2 3 0 (1 / 2)

end AiApi

namespace AiApi

/-- One delivered event of the stream, guarded by the abort flag: after
`controller.abort()`, `fetchEventSource` hands the handler no further
events. -/
def msgStep (parse : JsonParse) (st : MsgState) (data : String) : MsgState :=
  if st.aborted then st else onmessage parse st data

theorem runMessages_eq_foldl (parse : JsonParse) (events : List String) :
    runMessages parse events = events.foldl (msgStep parse) initMsgState := rfl

theorem msgStep_foldl_aborted (parse : JsonParse) (l : List String)
    (st : MsgState) (h : st.aborted = true) :
    l.foldl (msgStep parse) st = st := by
  induction l with
  | nil => rfl
  | cons x xs ih =>
    rw [List.foldl_cons, msgStep, if_pos h]
    exact ih

theorem runMessages_append (parse : JsonParse) (l1 l2 : List String) :
    runMessages parse (l1 ++ l2) =
      l2.foldl (msgStep parse) (runMessages parse l1) := by
  rw [runMessages_eq_foldl, runMessages_eq_foldl, List.foldl_append]

/-- Claim C7: an event whose data is the literal `[DONE]` aborts the stream
(so no later event is processed), is never forwarded to the consumer
callback, and contributes nothing to the accumulated text or token count; the
`readChunk` loop of the OpenRouter node likewise finishes on `data: [DONE]`
without touching the streamed text, publishing it as the full response and
dropping the remaining buffered lines. -/
theorem done_sentinel :
    (∀ (parse : JsonParse) (pre post : List String),
        (runMessages parse (pre ++ "[DONE]" :: post)).aborted = true ∧
        (runMessages parse (pre ++ "[DONE]" :: post)).fullText =
          (runMessages parse pre).fullText ∧
        (runMessages parse (pre ++ "[DONE]" :: post)).streamed =
          (runMessages parse pre).streamed ∧
        (runMessages parse (pre ++ "[DONE]" :: post)).completionTokenCount =
          (runMessages parse pre).completionTokenCount) ∧
    (∀ (parse : JsonParse) (st : OpenRouterNode.NodeState) (rest : List String),
        (OpenRouterNode.processLine parse st "data: [DONE]").streamingText =
          st.streamingText ∧
        (OpenRouterNode.processLine parse st "data: [DONE]").fullResponse =
          st.streamingText ∧
        (OpenRouterNode.processLine parse st "data: [DONE]").done = true ∧
        (st.done = false →
          OpenRouterNode.processLines parse st ("data: [DONE]" :: rest) =
            OpenRouterNode.processLine parse st "data: [DONE]")) := by
  have habort : ∀ (parse : JsonParse) (st : MsgState),
      st.aborted = false →
      msgStep parse st "[DONE]" = { st with aborted := true } := by
    intro parse st h
    rw [msgStep, if_neg (by simp [h]), onmessage, if_pos rfl]
  have hline : ∀ (parse : JsonParse) (st : OpenRouterNode.NodeState),
      OpenRouterNode.processLine parse st "data: [DONE]" =
        { st with
          fullResponse := st.streamingText
          messages := st.messages ++
            [("user", st.userMessage), ("assistant", st.streamingText)]
          completedSignals := st.completedSignals + 1
          done := true } := by
    intro parse st
    rw [OpenRouterNode.processLine, if_pos (by decide)]
    have hdata : String.mk (("data: [DONE]" : String).data.drop 6) = "[DONE]" := rfl
    rw [hdata, if_pos rfl]
  refine ⟨fun parse pre post => ?_, fun parse st rest => ?_⟩
  · rw [runMessages_append]
    cases h : (runMessages parse pre).aborted
    · rw [List.foldl_cons, habort parse _ h,
        msgStep_foldl_aborted parse post _ (by rfl)]
      exact ⟨rfl, rfl, rfl, rfl⟩
    · rw [List.foldl_cons, msgStep, if_pos h,
        msgStep_foldl_aborted parse post _ h]
      exact ⟨h, rfl, rfl, rfl⟩
  · refine ⟨by rw [hline], by rw [hline], by rw [hline], fun hdone => ?_⟩
    rw [OpenRouterNode.processLines, if_neg (by simp [hdone])]
    rw [hline, if_pos (by rfl)]

/-- Claim C7 witness: a concrete stream where `[DONE]` arrives between two
fragments, and a concrete `readChunk` buffer whose `[DONE]` line precedes a
further data line. -/
theorem done_sentinel_witness :
    (runMessages (fun _ => Except.ok (some "frag")) (["e1"] ++ "[DONE]" :: ["e2"])).aborted =
      true ∧
    OpenRouterNode.processLines (fun _ => Except.ok (some "frag"))
        ⟨"sofar", "", [], "question", 0, 0, false⟩ ("data: [DONE]" :: ["data: e2"]) =
      OpenRouterNode.processLine (fun _ => Except.ok (some "frag"))
        ⟨"sofar", "", [], "question", 0, 0, false⟩ "data: [DONE]" :=
  ⟨(done_sentinel.1 (fun _ => Except.ok (some "frag")) ["e1"] ["e2"]).1,
   (done_sentinel.2 (fun _ => Except.ok (some "frag"))
      ⟨"sofar", "", [], "question", 0, 0, false⟩ ["data: e2"]).2.2.2 rfl⟩

/-- Claim C9: an event whose data fails to parse as JSON or lacks the
`choices[0].delta.content` shape contributes nothing — no `onStream` call,
no accumulated text — and the stream continues exactly as if the event had
not occurred. -/
theorem malformed_event_ignored (parse : JsonParse) (pre post : List String)
    (data : String) (hne : data ≠ "[DONE]")
    (hbad : parse data = Except.error () ∨ parse data = Except.ok none) :
    runMessages parse (pre ++ data :: post) = runMessages parse (pre ++ post) := by
  rw [runMessages_append, runMessages_append, List.foldl_cons]
  cases h : (runMessages parse pre).aborted
  · have hstep : msgStep parse (runMessages parse pre) data = runMessages parse pre := by
      rw [msgStep, if_neg (by simp [h]), onmessage, if_neg hne]
      rcases hbad with hb | hb <;> rw [hb]
    rw [hstep]
  · rw [msgStep, if_pos h]

/-- Claim C9 witness: with an oracle that only parses the event `"x"`, the
malformed event `"junk"` in the middle of the stream leaves the final state
identical to the stream without it. -/
theorem malformed_event_ignored_witness :
    runMessages
        (fun s => if s = "x" then Except.ok (some "x") else Except.error ())
        (["x"] ++ "junk" :: ["x"]) =
      runMessages
        (fun s => if s = "x" then Except.ok (some "x") else Except.error ())
        (["x"] ++ ["x"]) :=
  malformed_event_ignored
    (fun s => if s = "x" then Except.ok (some "x") else Except.error ())
    ["x"] ["x"] "junk" (by decide) (Or.inl (by simp))

end AiApi

/-! ### CommandLexer (claims C4 and C6) -/

namespace CommandLexer

theorem append_spec (st : LexerState) (ch : String) :
    append st ch =
      (⟨st.buffer ++ ch, tokenize (st.buffer ++ ch)⟩,
        (tokenize (st.buffer ++ ch)).drop st.commands.length ++
          (List.range
              (min st.commands.length (tokenize (st.buffer ++ ch)).length)).filterMap
            (fun i =>
              if hasCommandChanged (st.commands.getD i default)
                  ((tokenize (st.buffer ++ ch)).getD i default)
              then some ((tokenize (st.buffer ++ ch)).getD i default) else none)) := rfl

/-- Claim C4: after `append`, the lexer state holds exactly the commands of a
single full-buffer `tokenize` pass; every reported command is a command of
that pass at a position that is either beyond the previous list (new) or
whose type/args changed positionally; and every position beyond the previous
list's length is reported. -/
theorem append_change_reporting (st : LexerState) (ch : String) :
    ((append st ch).1.commands = tokenize (st.buffer ++ ch) ∧
      (append st ch).1.buffer = st.buffer ++ ch) ∧
    (∀ c ∈ (append st ch).2,
        ∃ i, ∃ hi : i < (tokenize (st.buffer ++ ch)).length,
          (tokenize (st.buffer ++ ch))[i] = c ∧
          (st.commands.length ≤ i ∨
            hasCommandChanged (st.commands.getD i default)
              ((tokenize (st.buffer ++ ch)).getD i default) = true)) ∧
    (∀ i (hi : i < (tokenize (st.buffer ++ ch)).length),
        st.commands.length ≤ i →
        (tokenize (st.buffer ++ ch))[i] ∈ (append st ch).2) := by
  rw [append_spec]
  refine ⟨⟨rfl, rfl⟩, fun c hc => ?_, fun i hi hge => ?_⟩
  · rw [List.mem_append] at hc
    rcases hc with hc | hc
    · obtain ⟨j, hj, hget⟩ := List.getElem_of_mem hc
      rw [List.getElem_drop] at hget
      have hj2 : j < (tokenize (st.buffer ++ ch)).length - st.commands.length := by
        simpa [List.length_drop] using hj
      exact ⟨st.commands.length + j, by omega, hget, Or.inl (by omega)⟩
    · rw [List.mem_filterMap] at hc
      obtain ⟨i, hmem, hf⟩ := hc
      rw [List.mem_range] at hmem
      by_cases hchange : hasCommandChanged (st.commands.getD i default)
          ((tokenize (st.buffer ++ ch)).getD i default) = true
      · rw [if_pos hchange] at hf
        injection hf with hf
        have hi : i < (tokenize (st.buffer ++ ch)).length := by omega
        refine ⟨i, hi, ?_, Or.inr hchange⟩
        rw [← hf, List.getD_eq_getElem _ _ hi]
      · rw [if_neg hchange] at hf
        cases hf
  · rw [List.mem_append]
    left
    have hj : i - st.commands.length < ((tokenize (st.buffer ++ ch)).drop
        st.commands.length).length := by
      rw [List.length_drop]
      omega
    have : ((tokenize (st.buffer ++ ch)).drop st.commands.length)[i - st.commands.length] =
        (tokenize (st.buffer ++ ch))[i] := by
      rw [List.getElem_drop]
      congr 1
      omega
    rw [← this]
    exact List.getElem_mem hj

/-- Claim C4 witness: appending the closing fragment to a buffer holding the
unterminated `DO["x` reports the completed command `DO["xy"]`, which is the
single command of the full-buffer pass and is new relative to the previous
(empty) command list. -/
theorem append_change_reporting_witness :
    (tokenize ("DO[\"x" ++ "y\"]")).get
        ⟨0, by
          simp [tokenize, tokenizeGo, parseSegment, readArgs, readUntil, readUntilGo,
            skipToUpper, bracketRest, jsTrim, overwriteLast, isValidCommandType,
            startsWithUpper]⟩ ∈
      (append ⟨"DO[\"x", tokenize "DO[\"x"⟩ "y\"]").2 :=
  (append_change_reporting ⟨"DO[\"x", tokenize "DO[\"x"⟩ "y\"]").2.2 0
    (by simp [tokenize, tokenizeGo, parseSegment, readArgs, readUntil, readUntilGo,
      skipToUpper, bracketRest, jsTrim, overwriteLast, isValidCommandType,
      startsWithUpper])
    (by simp [tokenize, tokenizeGo, parseSegment, readArgs, readUntil, readUntilGo,
      skipToUpper, bracketRest, jsTrim, overwriteLast, isValidCommandType,
      startsWithUpper])

theorem skipToUpper_suffix (l : List Char) : skipToUpper l <:+ l := by
  induction l with
  | nil => exact List.suffix_refl []
  | cons c rest ih =>
    rw [skipToUpper]
    split
    · exact List.suffix_refl _
    · exact ih.trans (List.suffix_cons c rest)

theorem readUntilGo_rest_suffix (stopChars : List Char) :
    ∀ (l : List Char) (escaped : Bool) (acc : List Char),
      (readUntilGo stopChars l escaped acc).2 <:+ l := by
  intro l
  induction l with
  | nil => intro e a; simp [readUntilGo]
  | cons c rest ih =>
    intro e a
    rw [readUntilGo]
    split
    · exact (ih _ _).trans (List.suffix_cons c rest)
    · split
      · exact List.suffix_refl _
      · split
        · exact (ih _ _).trans (List.suffix_cons c rest)
        · exact (ih _ _).trans (List.suffix_cons c rest)

theorem readUntil_rest_suffix (stopChars l : List Char) :
    (readUntil stopChars l).2 <:+ l :=
  readUntilGo_rest_suffix stopChars l false []

theorem bracketRest_suffix (l : List Char) : bracketRest l <:+ l := by
  rw [bracketRest.eq_def]
  split
  · rename_i rest
    exact List.suffix_cons '[' rest
  · exact List.suffix_refl _

/-- If the remaining input contains no `]`, the argument loop consumes all of
it and stops at end of input. -/
theorem readArgs_no_rbracket (l : List Char) (args : List String)
    (hnorb : ']' ∉ l) : (readArgs l args).2 = [] := by
  induction l, args using readArgs.induct with
  | case1 args => simp [readArgs]
  | case2 rest args => exact absurd (List.mem_cons_self ']' rest) hnorb
  | case3 rest args hp hne =>
    rw [readArgs, if_neg hne, if_pos rfl]
    split
    · rfl
    · rename_i a l2 heq
      rw [heq] at hp
      simp at hp
  | case4 rest args head rest2 hp hne ih =>
    rw [readArgs, if_neg hne, if_pos rfl]
    split
    · rename_i heq
      rw [heq] at hp
    · rename_i a l2 heq
      rw [heq] at hp
      injection hp with h1 h2
      subst h1
      subst h2
      refine ih ?_
      intro hmem
      refine hnorb ?_
      have hsuf := readUntil_rest_suffix ['"'] rest
      rw [heq] at hsuf
      exact List.mem_cons_of_mem '"' (hsuf.subset (List.mem_cons_of_mem a hmem))
  | case5 c rest args hne1 hne2 ih =>
    rw [readArgs, if_neg hne1, if_neg hne2]
    exact ih (fun hmem => hnorb (List.mem_cons_of_mem c hmem))

/-- Claim C6: when tokenization hits end of input inside a bracketed argument
list with no closing `]` (here: the scanned fragment contains no `]` at all),
no new command is created; the type and arguments parsed so far overwrite
those of the last command already in the list, if any, leaving the command
count unchanged (and the list empty if it was empty). -/
theorem tokenize_unterminated (cmds : List ReActCommand) (frag : List Char)
    (hne : frag ≠ []) (hnorb : ']' ∉ frag) :
    tokenizeGo frag cmds =
      overwriteLast cmds (parseSegment frag).1 (parseSegment frag).2.1 ∧
    (cmds = [] → tokenizeGo frag cmds = []) ∧
    (cmds ≠ [] →
      (tokenizeGo frag cmds).length = cmds.length ∧
      (tokenizeGo frag cmds).dropLast = cmds.dropLast ∧
      (tokenizeGo frag cmds).getLast? =
        some ⟨(parseSegment frag).1, (parseSegment frag).2.1⟩) := by
  match frag, hne with
  | c :: cs, _ =>
    have hr2 : (']' : Char) ∉
        bracketRest (readUntil ['['] (skipToUpper (c :: cs))).2 := by
      intro hmem
      exact hnorb ((bracketRest_suffix _).subset.trans
        ((readUntil_rest_suffix _ _).subset.trans
          (skipToUpper_suffix (c :: cs)).subset) hmem)
    have hrest : (parseSegment (c :: cs)).2.2 = [] :=
      readArgs_no_rbracket _ [] hr2
    have hcond : ¬ (parseSegment (c :: cs)).2.2.head? = some ']' := by
      rw [hrest]
      simp
    have hmain : tokenizeGo (c :: cs) cmds =
        overwriteLast cmds (parseSegment (c :: cs)).1 (parseSegment (c :: cs)).2.1 := by
      rw [tokenizeGo]
      rw [dif_neg hcond]
    refine ⟨hmain, fun hcmds => ?_, fun hcmds => ?_⟩
    · rw [hmain, hcmds]
      rfl
    · match cmds, hcmds with
      | m :: ms, _ =>
        have hover : overwriteLast (m :: ms) (parseSegment (c :: cs)).1
            (parseSegment (c :: cs)).2.1 =
            (m :: ms).dropLast ++
              [⟨(parseSegment (c :: cs)).1, (parseSegment (c :: cs)).2.1⟩] := rfl
        rw [hmain, hover]
        refine ⟨?_, List.dropLast_concat, List.getLast?_concat _⟩
        rw [List.length_append, List.length_dropLast]
        simp [Nat.succ_sub_one]

/-- Claim C6 witness: feeding the danglingly bracketed fragment `B["y` to a
lexer that already holds the command `A["x"]` overwrites that command in
place instead of creating a new one. -/
theorem tokenize_unterminated_witness :
    tokenizeGo ("B[\"y").data [⟨"A", ["x"]⟩] =
      overwriteLast [⟨"A", ["x"]⟩] (parseSegment ("B[\"y").data).1
        (parseSegment ("B[\"y").data).2.1 ∧
    (tokenizeGo ("B[\"y").data [⟨"A", ["x"]⟩]).length = 1 :=
  ⟨(tokenize_unterminated [⟨"A", ["x"]⟩] ("B[\"y").data (by decide) (by decide)).1,
   ((tokenize_unterminated [⟨"A", ["x"]⟩] ("B[\"y").data (by decide)
      (by decide)).2.2 (by decide)).1⟩

end CommandLexer

/-! ### AiQuery: debounced stream delivery (claim C3) -/

namespace AiQuery

theorem outTagEvents_append (l1 l2 : List OutEvent) :
    outTagEvents (l1 ++ l2) = outTagEvents l1 ++ outTagEvents l2 := by
  simp [outTagEvents]

theorem flushBuffer_streamBuffer (st : XmlStreamState) :
    (flushBuffer st).streamBuffer = none := by
  rw [flushBuffer.eq_def]
  split <;> rfl

theorem outTagEvents_flushBuffer (st : XmlStreamState) :
    outTagEvents (flushBuffer st).out = outTagEvents st.out := by
  rw [flushBuffer.eq_def]
  split
  · rename_i p heq
    simp [outTagEvents]
  · rfl

theorem outTagEvents_xmlStep (st : XmlStreamState) (e : ParserEvent) :
    outTagEvents (xmlStep st e).out =
      outTagEvents st.out ++ inputTagEvents [e] := by
  match e with
  | ParserEvent.content tag text now =>
    rw [xmlStep]
    split
    · simp [inputTagEvents]
    · simp [outTagEvents_append, outTagEvents, inputTagEvents]
  | ParserEvent.tagOpen tag attrs =>
    simp [xmlStep, outTagEvents_append, outTagEvents, inputTagEvents]
  | ParserEvent.tagEnd tag full =>
    show outTagEvents ((flushBuffer st).out ++ [OutEvent.tagEnd tag full]) = _
    rw [outTagEvents_append, outTagEvents_flushBuffer]
    simp [outTagEvents, inputTagEvents]

/-- Claim C3 (corrected): every tag-open and tag-end event is delivered
immediately, exactly once and in order (the structural events of the output
are exactly those of the input, even across the final flush); a tag-end first
flushes any buffered content update and empties the buffer; a content update
arriving within `UPDATE_INTERVAL` of the last direct delivery is buffered,
overwriting any older buffered update, so only the latest buffered update
can ever be delivered.  (The claim's further assertion that no stale
buffered update is delivered after a newer one is false; see the
counterexample.) -/
theorem chatStreamXml_coalescing :
    (∀ (events : List ParserEvent),
        outTagEvents ((chatStreamXmlRun events).out) = inputTagEvents events) ∧
    (∀ (st : XmlStreamState) (tag full : String),
        (xmlStep st (ParserEvent.tagEnd tag full)).out =
          st.out ++ (match st.streamBuffer with
            | some p => [OutEvent.stream p.1 p.2]
            | none => []) ++ [OutEvent.tagEnd tag full] ∧
        (xmlStep st (ParserEvent.tagEnd tag full)).streamBuffer = none) ∧
    (∀ (st : XmlStreamState) (tag : String) (attrs : List (String × String)),
        (xmlStep st (ParserEvent.tagOpen tag attrs)).out =
          st.out ++ [OutEvent.tagOpen tag attrs]) ∧
    (∀ (st : XmlStreamState) (tag text : String) (now : Int),
        now - st.lastUpdateTime < UPDATE_INTERVAL →
        (xmlStep st (ParserEvent.content tag text now)).out = st.out ∧
        (xmlStep st (ParserEvent.content tag text now)).streamBuffer =
          some (tag, text)) := by
  have hfold : ∀ (events : List ParserEvent) (st : XmlStreamState),
      outTagEvents (events.foldl xmlStep st).out =
        outTagEvents st.out ++ inputTagEvents events := by
    intro events
    induction events with
    | nil => intro st; simp [inputTagEvents]
    | cons e es ih =>
      intro st
      rw [List.foldl_cons, ih, outTagEvents_xmlStep, List.append_assoc]
      congr 1
      cases e <;> simp [inputTagEvents]
  refine ⟨fun events => ?_, fun st tag full => ⟨?_, ?_⟩, fun st tag attrs => rfl,
    fun st tag text now hlt => ?_⟩
  · rw [chatStreamXmlRun, outTagEvents_flushBuffer, hfold]
    simp [initXmlState, outTagEvents]
  · show (flushBuffer st).out ++ [OutEvent.tagEnd tag full] = _
    rw [flushBuffer.eq_def]
    split
    · rename_i p heq
      simp
    · simp
  · exact flushBuffer_streamBuffer st
  · rw [xmlStep, if_pos hlt]
    exact ⟨rfl, rfl⟩

/-- Claim C3 witness: a concrete run (tag open, three content updates 100 ms,
110 ms and 120 ms after epoch, tag end) in which the structural events come
through exactly, the 110 ms update is buffered, and the buffer is flushed
before the tag end. -/
theorem chatStreamXml_coalescing_witness :
    outTagEvents ((chatStreamXmlRun
        [ParserEvent.tagOpen "t" [("k", "v")],
         ParserEvent.content "t" "A" 100, ParserEvent.content "t" "AB" 110,
         ParserEvent.content "t" "ABC" 120,
         ParserEvent.tagEnd "t" "ABC"]).out) =
      inputTagEvents
        [ParserEvent.tagOpen "t" [("k", "v")],
         ParserEvent.content "t" "A" 100, ParserEvent.content "t" "AB" 110,
         ParserEvent.content "t" "ABC" 120,
         ParserEvent.tagEnd "t" "ABC"] ∧
    (xmlStep ⟨none, 100, []⟩ (ParserEvent.content "t" "AB" 110)).out = [] ∧
    (xmlStep ⟨none, 100, []⟩ (ParserEvent.content "t" "AB" 110)).streamBuffer =
      some ("t", "AB") :=
  ⟨chatStreamXml_coalescing.1 _,
   (chatStreamXml_coalescing.2.2.2 ⟨none, 100, []⟩ "t" "AB" 110 (by decide)).1,
   (chatStreamXml_coalescing.2.2.2 ⟨none, 100, []⟩ "t" "AB" 110 (by decide)).2⟩

/-- Claim C3 counterexample: the direct-delivery branch does not clear the
buffer, so the update buffered at 110 ms ("AB") is flushed at the tag end
after the newer update delivered directly at 120 ms ("ABC") — a stale
buffered update is delivered after a newer one. -/
theorem chatStreamXml_stale_flush_counterexample :
    chatStreamXmlRun
        [ParserEvent.content "t" "A" 100, ParserEvent.content "t" "AB" 110,
         ParserEvent.content "t" "ABC" 120, ParserEvent.tagEnd "t" "ABC"] =
      ⟨none, 120,
        [OutEvent.stream "t" "A", OutEvent.stream "t" "ABC",
         OutEvent.stream "t" "AB", OutEvent.tagEnd "t" "ABC"]⟩ := by
  decide

end AiQuery
